import Mathlib

/-!
Verification development for the pyomo cutting-plane / alternative-solutions
utilities.  Linear arithmetic is embedded over a linear ordered commutative
ring `α` (instantiated at `ℚ` and, for fully concrete computations, at `ℤ`);
points are total maps `ℕ → α` from variable index to value, evaluated on a
fixed dimension.
-/

/-- Value of the linear functional with coefficients `c` at point `x`,
over the first `n` coordinates. -/
def dot {α : Type} [LinearOrderedCommRing α] (n : ℕ) (c x : ℕ → α) : α :=
  match n with
  | 0 => 0
  | Nat.succ m => dot m c x + c m * x m

/-- A linear inequality `coef · x ≤ rhs`. -/
structure LinIneq (α : Type) where
  coef : ℕ → α
  rhs : α

/-- Point `x` satisfies the inequality `q` (over dimension `n`). -/
def satIneq {α : Type} [LinearOrderedCommRing α] (n : ℕ) (q : LinIneq α) (x : ℕ → α) : Prop :=
  dot n q.coef x ≤ q.rhs

instance {α : Type} [LinearOrderedCommRing α] (n : ℕ) (q : LinIneq α) (x : ℕ → α) :
    Decidable (satIneq n q x) :=
  inferInstanceAs (Decidable (dot n q.coef x ≤ q.rhs))

/-- Scale an inequality by `t` (sound when `0 ≤ t`). -/
def smulIneq {α : Type} [LinearOrderedCommRing α] (t : α) (q : LinIneq α) : LinIneq α :=
  ⟨fun i => t * q.coef i, t * q.rhs⟩

/-- Add two inequalities. -/
def addIneq {α : Type} [LinearOrderedCommRing α] (p q : LinIneq α) : LinIneq α :=
  ⟨fun i => p.coef i + q.coef i, p.rhs + q.rhs⟩

/-- The Fourier-Motzkin combination of `p` (positive coefficient on `j`) and
`q` (negative coefficient on `j`): `(-q.coef j) • p + (p.coef j) • q`, whose
coefficient on `j` vanishes. -/
def fmeCombine {α : Type} [LinearOrderedCommRing α] (p q : LinIneq α) (j : ℕ) : LinIneq α :=
  addIneq (smulIneq (-(q.coef j)) p) (smulIneq (p.coef j) q)

/-- One Fourier-Motzkin elimination step: drop variable `j` from the system
`S` by keeping the inequalities not mentioning `j` and combining every pair
with opposite signs on `j`. -/
def fmeStep {α : Type} [LinearOrderedCommRing α] (j : ℕ) (S : List (LinIneq α)) :
    List (LinIneq α) :=
  (S.filter fun q => decide (q.coef j = 0)) ++
    (S.filter fun q => decide (0 < q.coef j)).flatMap fun p =>
      (S.filter fun q => decide (q.coef j < 0)).map fun q => fmeCombine p q j

/-- Fourier-Motzkin projection: eliminate each variable of `js` in turn. -/
def fmeProject {α : Type} [LinearOrderedCommRing α] (js : List ℕ) (S : List (LinIneq α)) :
    List (LinIneq α) :=
  js.foldl (fun T j => fmeStep j T) S

lemma dot_zero {α : Type} [LinearOrderedCommRing α] (c x : ℕ → α) : dot 0 c x = 0 := rfl

lemma dot_succ {α : Type} [LinearOrderedCommRing α] (m : ℕ) (c x : ℕ → α) :
    dot (Nat.succ m) c x = dot m c x + c m * x m := rfl

lemma addIneq_coef {α : Type} [LinearOrderedCommRing α] (p q : LinIneq α) (i : ℕ) :
    (addIneq p q).coef i = p.coef i + q.coef i := rfl

lemma smulIneq_coef {α : Type} [LinearOrderedCommRing α] (t : α) (q : LinIneq α) (i : ℕ) :
    (smulIneq t q).coef i = t * q.coef i := rfl

lemma dot_addIneq {α : Type} [LinearOrderedCommRing α] (n : ℕ) (p q : LinIneq α) (x : ℕ → α) :
    dot n (addIneq p q).coef x = dot n p.coef x + dot n q.coef x := by
  induction n with
  | zero => simp [dot_zero]
  | succ m ih =>
      rw [dot_succ, dot_succ, dot_succ, ih, addIneq_coef]
      ring

lemma dot_smulIneq {α : Type} [LinearOrderedCommRing α] (n : ℕ) (t : α) (q : LinIneq α)
    (x : ℕ → α) : dot n (smulIneq t q).coef x = t * dot n q.coef x := by
  induction n with
  | zero => simp [dot_zero]
  | succ m ih =>
      rw [dot_succ, dot_succ, ih, smulIneq_coef]
      ring

lemma satIneq_smul {α : Type} [LinearOrderedCommRing α] (n : ℕ) (t : α) (q : LinIneq α)
    (x : ℕ → α) (ht : 0 ≤ t) (hq : satIneq n q x) : satIneq n (smulIneq t q) x := by
  unfold satIneq at *
  rw [dot_smulIneq]
  show t * dot n q.coef x ≤ (smulIneq t q).rhs
  exact mul_le_mul_of_nonneg_left hq ht

lemma satIneq_add {α : Type} [LinearOrderedCommRing α] (n : ℕ) (p q : LinIneq α) (x : ℕ → α)
    (hp : satIneq n p x) (hq : satIneq n q x) : satIneq n (addIneq p q) x := by
  unfold satIneq at *
  rw [dot_addIneq]
  exact add_le_add hp hq

lemma satIneq_fmeCombine {α : Type} [LinearOrderedCommRing α] (n : ℕ) (p q : LinIneq α)
    (j : ℕ) (x : ℕ → α) (hpj : 0 ≤ p.coef j) (hqj : q.coef j ≤ 0)
    (hp : satIneq n p x) (hq : satIneq n q x) :
    satIneq n (fmeCombine p q j) x := by
  unfold fmeCombine
  exact satIneq_add n _ _ x
    (satIneq_smul n _ p x (neg_nonneg.mpr hqj) hp)
    (satIneq_smul n _ q x hpj hq)

lemma fmeStep_sound {α : Type} [LinearOrderedCommRing α] (n : ℕ) (j : ℕ)
    (S : List (LinIneq α)) (x : ℕ → α)
    (h : ∀ q ∈ S, satIneq n q x) : ∀ q ∈ fmeStep j S, satIneq n q x := by
  intro q hq
  unfold fmeStep at hq
  rcases List.mem_append.mp hq with hz | hc
  · exact h q (List.mem_filter.mp hz).1
  · rcases List.mem_flatMap.mp hc with ⟨p, hp, hq'⟩
    rcases List.mem_map.mp hq' with ⟨r, hr, rfl⟩
    have hpmem := List.mem_filter.mp hp
    have hrmem := List.mem_filter.mp hr
    have hpj : 0 < p.coef j := of_decide_eq_true hpmem.2
    have hrj : r.coef j < 0 := of_decide_eq_true hrmem.2
    exact satIneq_fmeCombine n p r j x (le_of_lt hpj) (le_of_lt hrj)
      (h p hpmem.1) (h r hrmem.1)

lemma fmeProject_sound {α : Type} [LinearOrderedCommRing α] (n : ℕ) (js : List ℕ)
    (S : List (LinIneq α)) (x : ℕ → α)
    (h : ∀ q ∈ S, satIneq n q x) : ∀ q ∈ fmeProject js S, satIneq n q x := by
  induction js generalizing S with
  | nil => exact h
  | cons j js ih =>
      exact ih (fmeStep j S) (fmeStep_sound n j S x h)

lemma fmeCombine_coef {α : Type} [LinearOrderedCommRing α] (p q : LinIneq α) (j i : ℕ) :
    (fmeCombine p q j).coef i = -(q.coef j) * p.coef i + p.coef j * q.coef i := rfl

lemma fmeStep_coef_self {α : Type} [LinearOrderedCommRing α] (j : ℕ) (S : List (LinIneq α)) :
    ∀ q ∈ fmeStep j S, q.coef j = 0 := by
  intro q hq
  unfold fmeStep at hq
  rcases List.mem_append.mp hq with hz | hc
  · exact of_decide_eq_true (List.mem_filter.mp hz).2
  · rcases List.mem_flatMap.mp hc with ⟨p, _, hq'⟩
    rcases List.mem_map.mp hq' with ⟨r, _, rfl⟩
    rw [fmeCombine_coef]
    ring

lemma fmeStep_coef_preserve {α : Type} [LinearOrderedCommRing α] (j j' : ℕ)
    (S : List (LinIneq α))
    (h : ∀ q ∈ S, q.coef j' = 0) : ∀ q ∈ fmeStep j S, q.coef j' = 0 := by
  intro q hq
  unfold fmeStep at hq
  rcases List.mem_append.mp hq with hz | hc
  · exact h q (List.mem_filter.mp hz).1
  · rcases List.mem_flatMap.mp hc with ⟨p, hp, hq'⟩
    rcases List.mem_map.mp hq' with ⟨r, hr, rfl⟩
    rw [fmeCombine_coef, h p (List.mem_filter.mp hp).1, h r (List.mem_filter.mp hr).1]
    ring

lemma fmeProject_coef_preserve {α : Type} [LinearOrderedCommRing α] (js : List ℕ) (j' : ℕ)
    (S : List (LinIneq α))
    (h : ∀ q ∈ S, q.coef j' = 0) : ∀ q ∈ fmeProject js S, q.coef j' = 0 := by
  induction js generalizing S with
  | nil => exact h
  | cons j js ih =>
      exact ih (fmeStep j S) (fmeStep_coef_preserve j j' S h)

lemma fmeProject_coef {α : Type} [LinearOrderedCommRing α] (js : List ℕ)
    (S : List (LinIneq α)) (j : ℕ) (hj : j ∈ js) :
    ∀ q ∈ fmeProject js S, q.coef j = 0 := by
  induction js generalizing S with
  | nil => cases hj
  | cons a js ih =>
      rcases List.mem_cons.mp hj with rfl | hj'
      · exact fmeProject_coef_preserve js j (fmeStep j S) (fmeStep_coef_self j S)
      · exact ih (fmeStep a S) hj'

lemma dot_congr {α : Type} [LinearOrderedCommRing α] (n : ℕ) (c x y : ℕ → α)
    (h : ∀ i, c i = 0 ∨ x i = y i) : dot n c x = dot n c y := by
  induction n with
  | zero => rfl
  | succ m ih =>
      rw [dot_succ, dot_succ, ih]
      rcases h m with h0 | hxy
      · rw [h0]; ring
      · rw [hxy]

/-- A Cut `lower ≤ body ≤ upper` (either bound may be absent), with a linear
body given by its coefficients. -/
structure Cut (α : Type) where
  body : ℕ → α
  lower : Option α
  upper : Option α

/-- Satisfaction: the cut's inequality holds at point `x` within tolerance `tol`. -/
def cutHoldsWithin {α : Type} [LinearOrderedCommRing α] (n : ℕ) (tol : α) (c : Cut α)
    (x : ℕ → α) : Prop :=
  (∀ l, c.lower = some l → l - tol ≤ dot n c.body x) ∧
  (∀ u, c.upper = some u → dot n c.body x ≤ u + tol)

/-- View a one-sided linear inequality as a Cut with only an upper bound. -/
def toCut {α : Type} (q : LinIneq α) : Cut α := ⟨q.coef, none, some q.rhs⟩

/-- A disjunct: its indicator-variable index and its local constraint system
(over the original variables). -/
structure Disjunct (α : Type) where
  ind : ℕ
  cons : List (LinIneq α)

/-- Selection predicate: `pt` is a point of disjunct `d`'s local feasible region taken together
with the indicator assignment selecting `d`: the indicator of `d` is 1, the
indicators of the other disjuncts are 0, and `pt` satisfies `d`'s local
constraints. -/
def selPoint {α : Type} [LinearOrderedCommRing α] (n : ℕ) (ds : List (Disjunct α))
    (d : Disjunct α) (pt : ℕ → α) : Prop :=
  d ∈ ds ∧ pt d.ind = 1 ∧
    (∀ d' ∈ ds, d'.ind ≠ d.ind → pt d'.ind = 0) ∧
    ∀ q ∈ d.cons, satIneq n q pt

/-- Modelled from the spec: the extended polyhedron built by the FME strategy
(pyomo/gdp/plugins/cuttingplane.py is not among the sources) is "the standard
linear disjunctive-hull lifting", so every point of a disjunct's local region,
taken with the indicator assignment selecting that disjunct, extends along the
auxiliary coordinates `auxs` to a point of the lifted system `H`. -/
def hullLifts {α : Type} [LinearOrderedCommRing α] (n : ℕ) (H : List (LinIneq α))
    (auxs : List ℕ) (ds : List (Disjunct α)) : Prop :=
  ∀ d pt, selPoint n ds d pt →
    ∃ xe, (∀ i, i ∈ auxs ∨ xe i = pt i) ∧ ∀ q ∈ H, satIneq n q xe

/-- Modelled from the spec: `create_cuts_fme` of pyomo/gdp/plugins/cuttingplane.py
is not among the sources.  Per the spec's FME strategy it builds the extended
hull polyhedron `H`, eliminates the auxiliary dimensions `auxs` by
Fourier-Motzkin elimination, and emits the remaining inequalities kept by the
acceptance filter `keep` (violation at the relaxation optimum, and any
post-processing rejection). -/
def create_cuts_fme {α : Type} [LinearOrderedCommRing α] (H : List (LinIneq α))
    (auxs : List ℕ) (keep : LinIneq α → Bool) : List (LinIneq α) :=
  (fmeProject auxs H).filter keep

/-- C1: For every cut accepted into the Cut Pool by the cutting-plane
transformation (modelled: the FME strategy projects the hull lifting `H` and
an arbitrary acceptance filter selects the cuts kept), and for every point of
every disjunct's local feasible region taken together with the
indicator-variable assignment that selects that disjunct — in particular every
extreme point — evaluating the cut's body at that point satisfies the cut's
lower and upper bounds within the configured tolerance: no
disjunctively-feasible point is excluded. -/
theorem accepted_cuts_valid (n : ℕ) (H : List (LinIneq ℚ)) (auxs : List ℕ)
    (ds : List (Disjunct ℚ)) (keep : LinIneq ℚ → Bool) (tol : ℚ) (htol : 0 ≤ tol)
    (hlift : hullLifts n H auxs ds) (c : LinIneq ℚ)
    (hc : c ∈ create_cuts_fme H auxs keep)
    (d : Disjunct ℚ) (pt : ℕ → ℚ) (hpt : selPoint n ds d pt) :
    cutHoldsWithin n tol (toCut c) pt := by
  have hcmem : c ∈ fmeProject auxs H := (List.mem_filter.mp hc).1
  obtain ⟨xe, hagree, hsat⟩ := hlift d pt hpt
  have hxe : satIneq n c xe := fmeProject_sound n auxs H xe hsat c hcmem
  have hdot : dot n c.coef pt = dot n c.coef xe := by
    refine (dot_congr n c.coef pt xe fun i => ?_)
    rcases hagree i with hi | hi
    · exact Or.inl (fmeProject_coef auxs H i hi c hcmem)
    · exact Or.inr hi.symm
  constructor
  · intro l hl
    simp [toCut] at hl
  · intro u hu
    have hu' : u = c.rhs := by
      simpa [toCut] using hu.symm
    subst hu'
    calc dot n (toCut c).body pt = dot n c.coef xe := hdot
    _ ≤ c.rhs := hxe
    _ ≤ c.rhs + tol := le_add_of_nonneg_right htol

/-- A one-disjunct instance used to exercise `accepted_cuts_valid`:
dimension 2, indicator coordinate 0, original coordinate 1, with the single
local constraint `x ≤ 1`; the hull system coincides with the local system and
no auxiliary coordinate is eliminated. -/
def sampleIneq : LinIneq ℚ := ⟨fun i => if i = 1 then 1 else 0, 1⟩

def sampleDisjunct : Disjunct ℚ := ⟨0, [sampleIneq]⟩

def samplePt : ℕ → ℚ := fun i => if i = 0 then 1 else if i = 1 then 1 else 0

theorem accepted_cuts_valid_witness :
    (0 : ℚ) ≤ 0 ∧ cutHoldsWithin 2 0 (toCut sampleIneq) samplePt := by
  have hlift : hullLifts 2 [sampleIneq] [] [sampleDisjunct] := by
    intro d pt hpt
    exact ⟨pt, fun i => Or.inr rfl, by
      intro q hq
      have hd : d = sampleDisjunct := List.mem_singleton.mp hpt.1
      have hq' : q ∈ sampleDisjunct.cons := by
        simpa [sampleDisjunct] using hq
      exact hpt.2.2.2 q (by rw [hd]; exact hq')⟩
  have hsel : selPoint 2 [sampleDisjunct] sampleDisjunct samplePt := by
    refine ⟨List.mem_singleton.mpr rfl, rfl, ?_, ?_⟩
    · intro d' hd' hne
      exact absurd (congrArg Disjunct.ind (List.mem_singleton.mp hd')) hne
    · intro q hq
      have hq' : q = sampleIneq := by simpa [sampleDisjunct] using hq
      subst hq'
      show satIneq 2 sampleIneq samplePt
      show dot 2 sampleIneq.coef samplePt ≤ sampleIneq.rhs
      norm_num [dot, sampleIneq, samplePt]
  have hmem : sampleIneq ∈ create_cuts_fme [sampleIneq] [] (fun _ => true) := by
    show sampleIneq ∈ List.filter (fun _ => true) (fmeProject [] [sampleIneq])
    simp [fmeProject]
  exact ⟨le_rfl,
    accepted_cuts_valid 2 [sampleIneq] [] [sampleDisjunct] (fun _ => true) 0
      le_rfl hlift sampleIneq hmem sampleDisjunct samplePt hsel⟩

/-- A sparse integer inequality: coefficients given as an index/value list. -/
def zIneq (cs : List (ℕ × ℤ)) (b : ℤ) : LinIneq ℤ := ⟨fun i => (List.lookup i cs).getD 0, b⟩

/-- Modelled from the spec: the two-linear-box disjunction fixture
(`makeTwoTermDisj_boxes` of pyomo/gdp/tests/models.py is not among the
sources; the fixture is described by the spec's scenario and by the extreme
points listed in pyomo/gdp/tests/test_cuttingplane.py): disjunct 1 is the box
`x ∈ [3,4], y ∈ [1,2]`, disjunct 2 the box `x ∈ [1,2], y ∈ [3,4]`.  This is
the standard linear disjunctive-hull lifting over the coordinates
`0:ind1, 1:ind2, 2:x, 3:y` and the disaggregated auxiliaries
`4:x1, 5:x2, 6:y1, 7:y2`: `x = x1 + x2`, `y = y1 + y2`, `ind1 + ind2 = 1`
(equations split into inequality pairs), and the indicator-scaled box bounds
`3 ind1 ≤ x1 ≤ 4 ind1`, `ind1 ≤ y1 ≤ 2 ind1`, `ind2 ≤ x2 ≤ 2 ind2`,
`3 ind2 ≤ y2 ≤ 4 ind2`. -/
def twoBoxHull : List (LinIneq ℤ) := [
  zIneq [(2,1),(4,-1),(5,-1)] 0,
  zIneq [(2,-1),(4,1),(5,1)] 0,
  zIneq [(3,1),(6,-1),(7,-1)] 0,
  zIneq [(3,-1),(6,1),(7,1)] 0,
  zIneq [(0,1),(1,1)] 1,
  zIneq [(0,-1),(1,-1)] (-1),
  zIneq [(0,3),(4,-1)] 0,
  zIneq [(0,-4),(4,1)] 0,
  zIneq [(1,1),(5,-1)] 0,
  zIneq [(1,-2),(5,1)] 0,
  zIneq [(0,1),(6,-1)] 0,
  zIneq [(0,-2),(6,1)] 0,
  zIneq [(1,3),(7,-1)] 0,
  zIneq [(1,-4),(7,1)] 0
]

/-- Violation test: `q` is strictly violated at the rational point `num / den` (with `den > 0`),
written with integer numerators so that the comparison is exact integer
arithmetic: `rhs < coef · (num/den)` iff `rhs * den < coef · num`. -/
def violatedAtScaled (n : ℕ) (den : ℤ) (num : ℕ → ℤ) (q : LinIneq ℤ) : Bool :=
  decide (q.rhs * den < dot n q.coef num)

/-- Modelled from the spec: the optimum of the first big-M relaxation solve of
the two-box fixture (the external solver and the fixture's objective
`min x + 2 y` are not among the sources).  With a large big-M the relaxation
lets `x = y = 0` with fractional indicators summing to one; the point is
`(ind1, ind2, x, y) = (1/2, 1/2, 0, 0)`, written as numerators over the
denominator 2. -/
def relaxNum : ℕ → ℤ := fun i => if i = 0 then 1 else if i = 1 then 1 else 0

/-- The Cut Pool produced by the FME strategy (no post-process callback) on
the two-box fixture: project out the disaggregated auxiliaries 4..7 and keep
the inequalities violated at the relaxation optimum. -/
def twoBoxFmeCuts : List (LinIneq ℤ) :=
  create_cuts_fme twoBoxHull [4, 5, 6, 7] (violatedAtScaled 8 2 relaxNum)

/-- The `k`-th cut of a pool (defaulting to the trivial inequality). -/
def cutAt (l : List (LinIneq ℤ)) (k : ℕ) : LinIneq ℤ := l.getD k ⟨fun _ => 0, 0⟩

/-- The extreme point `(ind1, ind2, x, y)` of the two-box fixture (the
auxiliary coordinates, which no final cut mentions, are left at zero). -/
def zPt (a b c d : ℤ) : ℕ → ℤ :=
  fun i => if i = 0 then a else if i = 1 then b else if i = 2 then c else if i = 3 then d else 0

/-- C2: On the two-linear-box disjunction fixture (disjunct 1: x in [3,4],
y in [1,2]; disjunct 2: x in [1,2], y in [3,4]), applying the cutting-plane
transformation with the FME strategy and no post-process callback yields
exactly 2 cuts, and each cut is exactly tight (bound equals body value, zero
tolerance) at its 4 listed extreme points: cut 0 at (1,0,3,1), (1,0,3,2),
(0,1,1,3), (0,1,1,4) and cut 1 at (0,1,1,3), (0,1,2,3), (1,0,3,1),
(1,0,4,1). -/
theorem two_box_fme_cuts_exact_facets :
    twoBoxFmeCuts.length = 2 ∧
    dot 8 (cutAt twoBoxFmeCuts 0).coef (zPt 1 0 3 1) = (cutAt twoBoxFmeCuts 0).rhs ∧
    dot 8 (cutAt twoBoxFmeCuts 0).coef (zPt 1 0 3 2) = (cutAt twoBoxFmeCuts 0).rhs ∧
    dot 8 (cutAt twoBoxFmeCuts 0).coef (zPt 0 1 1 3) = (cutAt twoBoxFmeCuts 0).rhs ∧
    dot 8 (cutAt twoBoxFmeCuts 0).coef (zPt 0 1 1 4) = (cutAt twoBoxFmeCuts 0).rhs ∧
    dot 8 (cutAt twoBoxFmeCuts 1).coef (zPt 0 1 1 3) = (cutAt twoBoxFmeCuts 1).rhs ∧
    dot 8 (cutAt twoBoxFmeCuts 1).coef (zPt 0 1 2 3) = (cutAt twoBoxFmeCuts 1).rhs ∧
    dot 8 (cutAt twoBoxFmeCuts 1).coef (zPt 1 0 3 1) = (cutAt twoBoxFmeCuts 1).rhs ∧
    dot 8 (cutAt twoBoxFmeCuts 1).coef (zPt 1 0 4 1) = (cutAt twoBoxFmeCuts 1).rhs := by
  decide

/-- The optimization sense of an objective. -/
inductive ObjSense
  | minimize
  | maximize
deriving DecidableEq

/-- An objective: its sense and its (opaque) expression. -/
structure Objective (E : Type) where
  sense : ObjSense
  expr : E

/-- Embedding of `objective.is_minimizing()`. -/
def Objective.is_minimizing {E : Type} (o : Objective E) : Bool :=
  match o.sense with
  | ObjSense.minimize => true
  | ObjSense.maximize => false

/-- A constraint as pyomo stores it: a body and optional lower/upper bounds. -/
structure ConstraintData (E : Type) where
  body : E
  lower : Option ℚ
  upper : Option ℚ

/-- A block, as the ordered association of component names to constraints. -/
abbrev AosBlock (E : Type) : Type := List (String × ConstraintData E)

/-- Embedding of `model.find_component(name)`. -/
def find_component {E : Type} (b : AosBlock E) (nm : String) : Option (ConstraintData E) :=
  List.lookup nm b

/-- Assertion predicate `gap is None or gap >= 0.0`. -/
def gapOk (g? : Option ℚ) : Prop := ∀ g, g? = some g → 0 ≤ g

instance : (g? : Option ℚ) → Decidable (gapOk g?)
  | none => isTrue fun _ h => nomatch h
  | some g =>
      if h : 0 ≤ g then isTrue fun _ h' => (Option.some.inj h') ▸ h
      else isFalse fun hall => h (hall g rfl)

/-- Embedding of `aos_utils._add_objective_constraint`: checks the two gap
assertions first (returning the untouched block and the assertion message on
failure), then attaches a relative and/or absolute objective constraint to
the block and returns the list of constraints added, relative first. -/
def _add_objective_constraint {E : Type} (aos_block : AosBlock E) (objective : Objective E)
    (objective_value : ℚ) (rel_opt_gap abs_opt_gap : Option ℚ) :
    AosBlock E × Except String (List (ConstraintData E)) :=
  if gapOk rel_opt_gap then
    if gapOk abs_opt_gap then
      let objective_is_min := objective.is_minimizing
      let objective_sense : ℚ := if objective_is_min then 1 else -1
      let step1 : AosBlock E × List (ConstraintData E) :=
        match rel_opt_gap with
        | some g =>
            let objective_cutoff := objective_value + objective_sense * g * |objective_value|
            let c : ConstraintData E :=
              if objective_is_min then ⟨objective.expr, none, some objective_cutoff⟩
              else ⟨objective.expr, some objective_cutoff, none⟩
            (aos_block ++ [("optimality_tol_rel", c)], [c])
        | none => (aos_block, [])
      let step2 : AosBlock E × List (ConstraintData E) :=
        match abs_opt_gap with
        | some g =>
            let objective_cutoff := objective_value + objective_sense * g
            let c : ConstraintData E :=
              if objective_is_min then ⟨objective.expr, none, some objective_cutoff⟩
              else ⟨objective.expr, some objective_cutoff, none⟩
            (step1.1 ++ [("optimality_tol_abs", c)], step1.2 ++ [c])
        | none => step1
      (step2.1, Except.ok step2.2)
    else (aos_block, Except.error "abs_opt_gap must be None of >= 0.0")
  else (aos_block, Except.error "rel_opt_gap must be None of >= 0.0")

/-- C3: For every objective, reference value and non-negative gaps,
`_add_objective_constraint` returns exactly one constraint per non-None gap
(zero, one or two constraints, relative first); for a minimizing objective
each produced constraint bounds the objective expression from above
(`upper = v + gap term`, no lower bound) and for a maximizing objective from
below (`lower = v - gap term`, no upper bound).  In particular with minimize
sense, objective value 2, `rel_opt_gap = 0.1` and no absolute gap it returns
exactly one constraint with upper bound 2.2 and no lower bound. -/
theorem add_objective_constraint_gaps {E : Type} (b : AosBlock E) (o : Objective E)
    (v : ℚ) (rel_opt_gap abs_opt_gap : Option ℚ)
    (hrel : gapOk rel_opt_gap) (habs : gapOk abs_opt_gap) :
    (_add_objective_constraint b o v rel_opt_gap abs_opt_gap).2 = Except.ok
      ((rel_opt_gap.toList.map fun g =>
          if o.sense = ObjSense.minimize then
            (⟨o.expr, none, some (v + g * |v|)⟩ : ConstraintData E)
          else ⟨o.expr, some (v - g * |v|), none⟩) ++
       (abs_opt_gap.toList.map fun g =>
          if o.sense = ObjSense.minimize then
            (⟨o.expr, none, some (v + g)⟩ : ConstraintData E)
          else ⟨o.expr, some (v - g), none⟩)) ∧
    (o.sense = ObjSense.minimize →
      (_add_objective_constraint b o 2 (some (1 / 10)) none).2 =
        Except.ok [⟨o.expr, none, some (11 / 5)⟩]) := by
  obtain ⟨s, e⟩ := o
  constructor
  · rw [_add_objective_constraint, if_pos hrel, if_pos habs]
    cases s <;> cases rel_opt_gap <;> cases abs_opt_gap <;>
      simp [Objective.is_minimizing] <;>
      first
      | rfl
      | (ring_nf; try exact ⟨trivial, trivial⟩)
  · intro hs
    cases s
    · rw [_add_objective_constraint,
        if_pos (show gapOk (some (1 / 10)) from fun g h => by
          injection h with h'
          subst h'
          norm_num),
        if_pos (show gapOk (none : Option ℚ) from fun g h => nomatch h)]
      simp [Objective.is_minimizing]
      norm_num
    · simp at hs

theorem add_objective_constraint_gaps_witness :
    (_add_objective_constraint ([] : AosBlock Unit) ⟨ObjSense.minimize, ()⟩ 2
        (some (1 / 10)) none).2 =
      Except.ok [⟨(), none, some (11 / 5)⟩] := by
  have h := add_objective_constraint_gaps ([] : AosBlock Unit) ⟨ObjSense.minimize, ()⟩ 2
    (some (1 / 10)) none
    (fun g hg => by
      injection hg with hg'
      subst hg'
      norm_num)
    (fun g hg => nomatch hg)
  exact h.2 rfl

/-- C4: For every objective and reference value `v`, a gap of 0 (relative or
absolute) produces an equality-tight bound: the produced constraint's single
finite bound equals `v` exactly, leaving zero slack at the reference
solution. -/
theorem add_objective_constraint_zero_gap {E : Type} (b : AosBlock E) (o : Objective E)
    (v : ℚ) :
    (_add_objective_constraint b o v (some 0) none).2 = Except.ok
      [if o.sense = ObjSense.minimize then (⟨o.expr, none, some v⟩ : ConstraintData E)
       else ⟨o.expr, some v, none⟩] ∧
    (_add_objective_constraint b o v none (some 0)).2 = Except.ok
      [if o.sense = ObjSense.minimize then (⟨o.expr, none, some v⟩ : ConstraintData E)
       else ⟨o.expr, some v, none⟩] := by
  obtain ⟨s, e⟩ := o
  have h0 : gapOk (some (0 : ℚ)) := fun g h => by
    injection h with h'
    subst h'
    norm_num
  have hn : gapOk (none : Option ℚ) := fun g h => nomatch h
  constructor <;>
    rw [_add_objective_constraint, if_pos h0, if_pos hn] <;>
    cases s <;> simp [Objective.is_minimizing]

/-- C5: For every objective and reference value, a negative `rel_opt_gap` or a
negative `abs_opt_gap` raises the assertion error, and the error is raised
before any constraint is added to the block: the block is returned
unchanged. -/
theorem add_objective_constraint_negative_gap {E : Type} (b : AosBlock E) (o : Objective E)
    (v g g' : ℚ) (abs_opt_gap rel_opt_gap : Option ℚ)
    (hg : g < 0) (hg' : g' < 0) (hrel : gapOk rel_opt_gap) :
    _add_objective_constraint b o v (some g) abs_opt_gap =
      (b, Except.error "rel_opt_gap must be None of >= 0.0") ∧
    _add_objective_constraint b o v rel_opt_gap (some g') =
      (b, Except.error "abs_opt_gap must be None of >= 0.0") := by
  have hbad : ¬ gapOk (some g) := fun h => absurd (h g rfl) (not_le.mpr hg)
  have hbad' : ¬ gapOk (some g') := fun h => absurd (h g' rfl) (not_le.mpr hg')
  constructor
  · rw [_add_objective_constraint, if_neg hbad]
  · rw [_add_objective_constraint, if_pos hrel, if_neg hbad']

theorem add_objective_constraint_negative_gap_witness :
    _add_objective_constraint ([] : AosBlock Unit) ⟨ObjSense.minimize, ()⟩ 2 (some (-1)) none =
      ([], Except.error "rel_opt_gap must be None of >= 0.0") ∧
    _add_objective_constraint ([] : AosBlock Unit) ⟨ObjSense.minimize, ()⟩ 2 none (some (-2)) =
      ([], Except.error "abs_opt_gap must be None of >= 0.0") :=
  add_objective_constraint_negative_gap ([] : AosBlock Unit) ⟨ObjSense.minimize, ()⟩ 2
    (-1) (-2) none none (by norm_num) (by norm_num) (fun g h => nomatch h)

lemma lookup_append_of_none {β : Type} (nm : String) (l₁ l₂ : List (String × β))
    (h : List.lookup nm l₁ = none) :
    List.lookup nm (l₁ ++ l₂) = List.lookup nm l₂ := by
  induction l₁ with
  | nil => rfl
  | cons a t ih =>
      obtain ⟨k, c⟩ := a
      by_cases hk : nm == k
      · rw [List.lookup, hk] at h
        cases h
      · rw [Bool.not_eq_true] at hk
        rw [List.lookup, hk] at h
        simp only [List.cons_append, List.lookup, hk]
        exact ih h

/-- C10: When `_add_objective_constraint` produces constraints it attaches
them to the given block under the fixed component names `optimality_tol_rel`
(relative gap) and `optimality_tol_abs` (absolute gap), and the returned list
contains the relative-gap constraint before the absolute-gap constraint when
both gaps are supplied; when a gap is None the corresponding named component
is absent from the block. -/
theorem add_objective_constraint_components {E : Type} (b : AosBlock E) (o : Objective E)
    (v gr ga : ℚ) (hgr : 0 ≤ gr) (hga : 0 ≤ ga)
    (hbr : find_component b "optimality_tol_rel" = none)
    (hba : find_component b "optimality_tol_abs" = none) :
    (∃ c0 c1,
      (_add_objective_constraint b o v (some gr) (some ga)).2 = Except.ok [c0, c1] ∧
      find_component (_add_objective_constraint b o v (some gr) (some ga)).1
        "optimality_tol_rel" = some c0 ∧
      find_component (_add_objective_constraint b o v (some gr) (some ga)).1
        "optimality_tol_abs" = some c1) ∧
    find_component (_add_objective_constraint b o v none (some ga)).1
      "optimality_tol_rel" = none ∧
    find_component (_add_objective_constraint b o v (some gr) none).1
      "optimality_tol_abs" = none := by
  obtain ⟨s, e⟩ := o
  have hgr' : gapOk (some gr) := fun g h => by
    injection h with h'
    subst h'
    exact hgr
  have hga' : gapOk (some ga) := fun g h => by
    injection h with h'
    subst h'
    exact hga
  have hn : gapOk (none : Option ℚ) := fun g h => nomatch h
  unfold find_component at *
  cases s with
  | minimize =>
      have hfn1 : (_add_objective_constraint b ⟨ObjSense.minimize, e⟩ v (some gr) (some ga)).1 =
          (b ++ [("optimality_tol_rel",
              (⟨e, none, some (v + 1 * gr * |v|)⟩ : ConstraintData E))]) ++
            [("optimality_tol_abs", (⟨e, none, some (v + 1 * ga)⟩ : ConstraintData E))] := by
        rw [_add_objective_constraint, if_pos hgr', if_pos hga']
        rfl
      have hfn2 : (_add_objective_constraint b ⟨ObjSense.minimize, e⟩ v (some gr) (some ga)).2 =
          Except.ok [(⟨e, none, some (v + 1 * gr * |v|)⟩ : ConstraintData E),
            ⟨e, none, some (v + 1 * ga)⟩] := by
        rw [_add_objective_constraint, if_pos hgr', if_pos hga']
        rfl
      have ha1 : (_add_objective_constraint b ⟨ObjSense.minimize, e⟩ v none (some ga)).1 =
          b ++ [("optimality_tol_abs", (⟨e, none, some (v + 1 * ga)⟩ : ConstraintData E))] := by
        rw [_add_objective_constraint, if_pos hn, if_pos hga']
        rfl
      have hr1 : (_add_objective_constraint b ⟨ObjSense.minimize, e⟩ v (some gr) none).1 =
          b ++ [("optimality_tol_rel",
            (⟨e, none, some (v + 1 * gr * |v|)⟩ : ConstraintData E))] := by
        rw [_add_objective_constraint, if_pos hgr', if_pos hn]
        rfl
      refine ⟨⟨_, _, hfn2, ?_, ?_⟩, ?_, ?_⟩
      · rw [hfn1, List.append_assoc, lookup_append_of_none _ _ _ hbr]
        rfl
      · rw [hfn1, List.append_assoc, lookup_append_of_none _ _ _ hba]
        rfl
      · rw [ha1, lookup_append_of_none _ _ _ hbr]
        rfl
      · rw [hr1, lookup_append_of_none _ _ _ hba]
        rfl
  | maximize =>
      have hfn1 : (_add_objective_constraint b ⟨ObjSense.maximize, e⟩ v (some gr) (some ga)).1 =
          (b ++ [("optimality_tol_rel",
              (⟨e, some (v + -1 * gr * |v|), none⟩ : ConstraintData E))]) ++
            [("optimality_tol_abs", (⟨e, some (v + -1 * ga), none⟩ : ConstraintData E))] := by
        rw [_add_objective_constraint, if_pos hgr', if_pos hga']
        rfl
      have hfn2 : (_add_objective_constraint b ⟨ObjSense.maximize, e⟩ v (some gr) (some ga)).2 =
          Except.ok [(⟨e, some (v + -1 * gr * |v|), none⟩ : ConstraintData E),
            ⟨e, some (v + -1 * ga), none⟩] := by
        rw [_add_objective_constraint, if_pos hgr', if_pos hga']
        rfl
      have ha1 : (_add_objective_constraint b ⟨ObjSense.maximize, e⟩ v none (some ga)).1 =
          b ++ [("optimality_tol_abs", (⟨e, some (v + -1 * ga), none⟩ : ConstraintData E))] := by
        rw [_add_objective_constraint, if_pos hn, if_pos hga']
        rfl
      have hr1 : (_add_objective_constraint b ⟨ObjSense.maximize, e⟩ v (some gr) none).1 =
          b ++ [("optimality_tol_rel",
            (⟨e, some (v + -1 * gr * |v|), none⟩ : ConstraintData E))] := by
        rw [_add_objective_constraint, if_pos hgr', if_pos hn]
        rfl
      refine ⟨⟨_, _, hfn2, ?_, ?_⟩, ?_, ?_⟩
      · rw [hfn1, List.append_assoc, lookup_append_of_none _ _ _ hbr]
        rfl
      · rw [hfn1, List.append_assoc, lookup_append_of_none _ _ _ hba]
        rfl
      · rw [ha1, lookup_append_of_none _ _ _ hbr]
        rfl
      · rw [hr1, lookup_append_of_none _ _ _ hba]
        rfl

theorem add_objective_constraint_components_witness :
    (∃ c0 c1,
      (_add_objective_constraint ([] : AosBlock Unit) ⟨ObjSense.minimize, ()⟩ 2
          (some (3 / 10)) (some 5)).2 = Except.ok [c0, c1] ∧
      find_component (_add_objective_constraint ([] : AosBlock Unit) ⟨ObjSense.minimize, ()⟩ 2
          (some (3 / 10)) (some 5)).1 "optimality_tol_rel" = some c0 ∧
      find_component (_add_objective_constraint ([] : AosBlock Unit) ⟨ObjSense.minimize, ()⟩ 2
          (some (3 / 10)) (some 5)).1 "optimality_tol_abs" = some c1) ∧
    find_component (_add_objective_constraint ([] : AosBlock Unit) ⟨ObjSense.minimize, ()⟩ 2
        none (some 5)).1 "optimality_tol_rel" = none ∧
    find_component (_add_objective_constraint ([] : AosBlock Unit) ⟨ObjSense.minimize, ()⟩ 2
        (some (3 / 10)) none).1 "optimality_tol_abs" = none :=
  add_objective_constraint_components ([] : AosBlock Unit) ⟨ObjSense.minimize, ()⟩ 2
    (3 / 10) 5 (by norm_num) (by norm_num) rfl rfl

/-- An objective data object: an identifier and its active flag. -/
structure ObjData where
  oid : ℕ
  active : Bool
deriving DecidableEq

/-- Embedding of `aos_utils._get_active_objective`: collect the active
objective data objects of the model and assert that exactly one exists; the
assertion message names the number of active objectives found. -/
def _get_active_objective (objs : List ObjData) : Except String ObjData :=
  let active_objs := objs.filter fun o => o.active
  if h : active_objs.length = 1 then
    Except.ok (active_objs.head (List.ne_nil_of_length_pos (by omega)))
  else
    Except.error ("Model has " ++ toString active_objs.length ++
      " active objective functions, exactly one is required.")

/-- The outcome of a transformation run: how many solver calls it made and
the cuts it produced. -/
structure TransOutcome where
  solves : ℕ
  cuts : List (LinIneq ℤ)

/-- Modelled from the spec: the cutting-plane transformation driver
(pyomo/gdp/plugins/cuttingplane.py is not among the sources).  Per the spec a
DegenerateModel condition (not exactly one active objective) is fatal and
reported before iterating, so the driver consults the active-objective lookup
first and only on success proceeds to the solve/separate loop `run`. -/
def cuttingplane_apply_to (objs : List ObjData) (run : ObjData → TransOutcome) :
    Except String TransOutcome :=
  match _get_active_objective objs with
  | Except.error e => Except.error e
  | Except.ok o => Except.ok (run o)

/-- C6: If the model does not have exactly one active objective (zero, or
more than one), the transformation fails before any solve or iteration
starts: the error comes from the active-objective lookup, short-circuiting
the loop, and its message names the number of active objectives found. -/
theorem active_objective_error (objs : List ObjData) (run : ObjData → TransOutcome)
    (h : (objs.filter fun o => o.active).length ≠ 1) :
    _get_active_objective objs = Except.error ("Model has " ++
        toString (objs.filter fun o => o.active).length ++
        " active objective functions, exactly one is required.") ∧
    cuttingplane_apply_to objs run = Except.error ("Model has " ++
        toString (objs.filter fun o => o.active).length ++
        " active objective functions, exactly one is required.") := by
  have h1 : _get_active_objective objs = Except.error ("Model has " ++
      toString (objs.filter fun o => o.active).length ++
      " active objective functions, exactly one is required.") := by
    rw [_get_active_objective]
    exact dif_neg h
  refine ⟨h1, ?_⟩
  rw [cuttingplane_apply_to, h1]

theorem active_objective_error_witness :
    _get_active_objective [⟨1, false⟩] = Except.error
      "Model has 0 active objective functions, exactly one is required." ∧
    cuttingplane_apply_to [⟨1, false⟩] (fun _ => ⟨0, []⟩) = Except.error
      "Model has 0 active objective functions, exactly one is required." := by
  have h := active_objective_error [⟨1, false⟩] (fun _ => ⟨0, []⟩) (by decide)
  exact ⟨h.1, h.2⟩

/-- A variable data object: an identifier, its domain kind flags and its
fixed status. -/
structure VarData where
  vid : ℕ
  continuous : Bool
  binary : Bool
  integer : Bool
  fixed : Bool
deriving DecidableEq

/-- Embedding of `aos_utils._filter_model_variables`: walk the generated
variables, skip any that is already in the set or that is fixed while fixed
variables are excluded, and add those whose kind matches an enabled filter
(the set is kept as a duplicate-free list in insertion order). -/
def _filter_model_variables (variable_set : List VarData) (var_generator : List VarData)
    (include_continuous include_binary include_integer include_fixed : Bool) :
    List VarData :=
  var_generator.foldl
    (fun vs var =>
      if var ∈ vs ∨ (var.fixed = true ∧ ¬ include_fixed = true) then vs
      else if (var.continuous = true ∧ include_continuous = true) ∨
          (var.binary = true ∧ include_binary = true) ∨
          (var.integer = true ∧ include_integer = true) then vs ++ [var]
      else vs)
    variable_set

/-- Embedding of `aos_utils.get_model_variables` for `components = 'all'`:
the variable generator (`pyomo.util.vars_from_expressions.get_vars_from_components`
is not among the sources) is modelled from the spec as the concatenation of
the variables referenced by each of the model's constraints, and the result
is the filtered set starting from the empty set. -/
def get_model_variables (model : List (List VarData))
    (include_continuous include_binary include_integer include_fixed : Bool) :
    List VarData :=
  _filter_model_variables [] model.flatten
    include_continuous include_binary include_integer include_fixed

lemma filter_model_variables_mono (vs gen : List VarData) (ic ib ii incf : Bool) :
    ∀ v ∈ vs, v ∈ _filter_model_variables vs gen ic ib ii incf := by
  induction gen generalizing vs with
  | nil => exact fun v hv => hv
  | cons a t ih =>
      intro v hv
      rw [_filter_model_variables, List.foldl_cons]
      by_cases h1 : a ∈ vs ∨ (a.fixed = true ∧ ¬ incf = true)
      · rw [if_pos h1]
        exact ih vs v hv
      · rw [if_neg h1]
        by_cases h2 : (a.continuous = true ∧ ic = true) ∨ (a.binary = true ∧ ib = true) ∨
            (a.integer = true ∧ ii = true)
        · rw [if_pos h2]
          exact ih (vs ++ [a]) v (List.mem_append_left _ hv)
        · rw [if_neg h2]
          exact ih vs v hv

lemma filter_model_variables_sound (vs gen : List VarData) (ic ib ii incf : Bool) :
    ∀ v ∈ _filter_model_variables vs gen ic ib ii incf,
      v ∈ vs ∨ (v ∈ gen ∧
        ((v.continuous = true ∧ ic = true) ∨ (v.binary = true ∧ ib = true) ∨
          (v.integer = true ∧ ii = true)) ∧
        (v.fixed = true → incf = true)) := by
  induction gen generalizing vs with
  | nil => exact fun v hv => Or.inl hv
  | cons a t ih =>
      intro v hv
      rw [_filter_model_variables, List.foldl_cons] at hv
      by_cases h1 : a ∈ vs ∨ (a.fixed = true ∧ ¬ incf = true)
      · rw [if_pos h1] at hv
        rcases ih vs v hv with h | ⟨hmem, hk, hf⟩
        · exact Or.inl h
        · exact Or.inr ⟨List.mem_cons_of_mem a hmem, hk, hf⟩
      · rw [if_neg h1] at hv
        by_cases h2 : (a.continuous = true ∧ ic = true) ∨ (a.binary = true ∧ ib = true) ∨
            (a.integer = true ∧ ii = true)
        · rw [if_pos h2] at hv
          rcases ih (vs ++ [a]) v hv with h | ⟨hmem, hk, hf⟩
          · rcases List.mem_append.mp h with h' | h'
            · exact Or.inl h'
            · have hva : v = a := List.mem_singleton.mp h'
              subst hva
              refine Or.inr ⟨List.mem_cons_self v t, h2, fun hfix => ?_⟩
              by_contra hincf
              exact h1 (Or.inr ⟨hfix, fun he => hincf he⟩)
          · exact Or.inr ⟨List.mem_cons_of_mem a hmem, hk, hf⟩
        · rw [if_neg h2] at hv
          rcases ih vs v hv with h | ⟨hmem, hk, hf⟩
          · exact Or.inl h
          · exact Or.inr ⟨List.mem_cons_of_mem a hmem, hk, hf⟩

lemma filter_model_variables_nodup (vs gen : List VarData) (ic ib ii incf : Bool)
    (hnd : vs.Nodup) : (_filter_model_variables vs gen ic ib ii incf).Nodup := by
  induction gen generalizing vs with
  | nil => exact hnd
  | cons a t ih =>
      rw [_filter_model_variables, List.foldl_cons]
      by_cases h1 : a ∈ vs ∨ (a.fixed = true ∧ ¬ incf = true)
      · rw [if_pos h1]
        exact ih vs hnd
      · rw [if_neg h1]
        by_cases h2 : (a.continuous = true ∧ ic = true) ∨ (a.binary = true ∧ ib = true) ∨
            (a.integer = true ∧ ii = true)
        · rw [if_pos h2]
          refine ih (vs ++ [a]) (List.nodup_append.mpr ⟨hnd, List.nodup_singleton a, ?_⟩)
          intro x hx hxa
          have hxa' : x = a := List.mem_singleton.mp hxa
          subst hxa'
          exact h1 (Or.inl hx)
        · rw [if_neg h2]
          exact ih vs hnd

lemma filter_model_variables_complete (vs gen : List VarData) (ic ib ii incf : Bool) :
    ∀ v ∈ gen, ¬ (v.fixed = true ∧ ¬ incf = true) →
      ((v.continuous = true ∧ ic = true) ∨ (v.binary = true ∧ ib = true) ∨
        (v.integer = true ∧ ii = true)) →
      v ∈ _filter_model_variables vs gen ic ib ii incf := by
  induction gen generalizing vs with
  | nil => intro v hv; cases hv
  | cons a t ih =>
      intro v hv hfix hkind
      rw [_filter_model_variables, List.foldl_cons]
      rcases List.mem_cons.mp hv with rfl | hvt
      · by_cases h1 : v ∈ vs ∨ (v.fixed = true ∧ ¬ incf = true)
        · rw [if_pos h1]
          have hvvs : v ∈ vs := by
            rcases h1 with h | h
            · exact h
            · exact absurd h hfix
          exact filter_model_variables_mono vs t ic ib ii incf v hvvs
        · rw [if_neg h1, if_pos hkind]
          exact filter_model_variables_mono (vs ++ [v]) t ic ib ii incf v
            (List.mem_append_right vs (List.mem_singleton.mpr rfl))
      · by_cases h1 : a ∈ vs ∨ (a.fixed = true ∧ ¬ incf = true)
        · rw [if_pos h1]
          exact ih vs v hvt hfix hkind
        · rw [if_neg h1]
          by_cases h2 : (a.continuous = true ∧ ic = true) ∨ (a.binary = true ∧ ib = true) ∨
              (a.integer = true ∧ ii = true)
          · rw [if_pos h2]
            exact ih (vs ++ [a]) v hvt hfix hkind
          · rw [if_neg h2]
            exact ih vs v hvt hfix hkind

/-- C7: For every model and every choice of the include flags,
`get_model_variables` returns a set in which each referenced decision
variable appears exactly once (duplicate-free, and a referenced variable
passing the enabled filters is present), every returned variable satisfies
at least one of the enabled kind filters, no fixed variable is returned
unless `include_fixed` is true, and every returned variable is referenced by
the model. -/
theorem get_model_variables_spec (model : List (List VarData))
    (ic ib ii incf : Bool) :
    (get_model_variables model ic ib ii incf).Nodup ∧
    (∀ v ∈ get_model_variables model ic ib ii incf,
      (v.continuous = true ∧ ic = true) ∨ (v.binary = true ∧ ib = true) ∨
        (v.integer = true ∧ ii = true)) ∧
    (∀ v ∈ get_model_variables model ic ib ii incf, v.fixed = true → incf = true) ∧
    (∀ v ∈ get_model_variables model ic ib ii incf, v ∈ model.flatten) ∧
    (∀ v ∈ model.flatten, ¬ (v.fixed = true ∧ ¬ incf = true) →
      ((v.continuous = true ∧ ic = true) ∨ (v.binary = true ∧ ib = true) ∨
        (v.integer = true ∧ ii = true)) →
      v ∈ get_model_variables model ic ib ii incf) := by
  refine ⟨?_, ?_, ?_, ?_, ?_⟩
  · exact filter_model_variables_nodup [] model.flatten ic ib ii incf List.nodup_nil
  · intro v hv
    rcases filter_model_variables_sound [] model.flatten ic ib ii incf v hv with h | ⟨_, hk, _⟩
    · cases h
    · exact hk
  · intro v hv
    rcases filter_model_variables_sound [] model.flatten ic ib ii incf v hv with h | ⟨_, _, hf⟩
    · cases h
    · exact hf
  · intro v hv
    rcases filter_model_variables_sound [] model.flatten ic ib ii incf v hv with h | ⟨hm, _, _⟩
    · cases h
    · exact hm
  · exact filter_model_variables_complete [] model.flatten ic ib ii incf

theorem get_model_variables_spec_witness :
    (get_model_variables [[⟨1, true, false, false, false⟩], [⟨1, true, false, false, false⟩]]
      true true true false).Nodup ∧
    (⟨1, true, false, false, false⟩ : VarData) ∈
      get_model_variables [[⟨1, true, false, false, false⟩], [⟨1, true, false, false, false⟩]]
        true true true false := by
  have h := get_model_variables_spec
    [[⟨1, true, false, false, false⟩], [⟨1, true, false, false, false⟩]] true true true false
  exact ⟨h.1, h.2.2.2.2 ⟨1, true, false, false, false⟩ (by decide) (by decide) (by decide)⟩

lemma lookup_map_of_mem {β : Type} (f : ℕ → β) (l : List ℕ) (i : ℕ) (h : i ∈ l) :
    List.lookup i (l.map fun j => (j, f j)) = some (f i) := by
  induction l with
  | nil => cases h
  | cons a t ih =>
      by_cases hia : i = a
      · subst hia
        simp [List.lookup]
      · have hit : i ∈ t := by
          rcases List.mem_cons.mp h with h' | h'
          · exact absurd h' hia
          · exact h'
        have hne : (i == a) = false := beq_eq_false_iff_ne.mpr hia
        simp only [List.map_cons, List.lookup, hne]
        exact ih hit

lemma lookup_map_of_not_mem {β : Type} (f : ℕ → β) (l : List ℕ) (i : ℕ) (h : i ∉ l) :
    List.lookup i (l.map fun j => (j, f j)) = none := by
  induction l with
  | nil => rfl
  | cons a t ih =>
      have hia : i ≠ a := fun he => h (he ▸ List.mem_cons_self a t)
      have hit : i ∉ t := fun he => h (List.mem_cons_of_mem a he)
      have hne : (i == a) = false := beq_eq_false_iff_ne.mpr hia
      simp only [List.map_cons, List.lookup, hne]
      exact ih hit

/-- The mutable component state touched by the manager: per-variable fixed
flags and values, per-constraint active flags (components indexed by `ℕ`). -/
structure SubsysState where
  varFixed : ℕ → Bool
  varValue : ℕ → Option ℚ
  conActive : ℕ → Bool

/-- What the manager records on entry. -/
structure TsmRecord where
  fixedWas : List (ℕ × Bool)
  activeWas : List (ℕ × Bool)
  valueWas : List (ℕ × Option ℚ)

/-- Modelled from the spec: `TemporarySubsystemManager.__enter__`
(pyomo/util/subsystems.py is not among the sources; the spec requires "a
context object that records prior fixed/active status, applies the requested
fix/deactivate set").  Records the prior fixed status of `to_fix`, the prior
active status of `to_deactivate` and the prior values of `to_reset`, then
fixes the `to_fix` variables and deactivates the `to_deactivate`
constraints. -/
def tsm_enter (to_fix to_deactivate to_reset : List ℕ) (s : SubsysState) :
    TsmRecord × SubsysState :=
  (⟨to_fix.map fun i => (i, s.varFixed i),
    to_deactivate.map fun i => (i, s.conActive i),
    to_reset.map fun i => (i, s.varValue i)⟩,
   ⟨fun i => if i ∈ to_fix then true else s.varFixed i,
    s.varValue,
    fun i => if i ∈ to_deactivate then false else s.conActive i⟩)

/-- Modelled from the spec: `TemporarySubsystemManager.__exit__` ("guarantees
restoration on every exit path (including failure)").  Restores the recorded
fixed statuses, active statuses and values, leaving everything else as the
body left it. -/
def tsm_exit (r : TsmRecord) (s : SubsysState) : SubsysState :=
  ⟨fun i => (List.lookup i r.fixedWas).getD (s.varFixed i),
   fun i => (List.lookup i r.valueWas).getD (s.varValue i),
   fun i => (List.lookup i r.activeWas).getD (s.conActive i)⟩

/-- Running a body (normal or up-to-exception execution) under the scoped
manager: enter, run the body, exit from whatever state the body reached. -/
def tsm_with (to_fix to_deactivate to_reset : List ℕ) (body : SubsysState → SubsysState)
    (s : SubsysState) : SubsysState :=
  tsm_exit (tsm_enter to_fix to_deactivate to_reset s).1
    (body (tsm_enter to_fix to_deactivate to_reset s).2)

/-- C8: For every model state, fix/deactivate/reset request and body (the
body stands for whatever execution happened before a normal or exceptional
exit), the scoped manager restores each listed variable's prior fixed
status, each listed constraint's prior active status and the prior values of
the `to_reset` variables — in particular a variable already fixed (or a
constraint already deactivated) on entry stays fixed (deactivated) — while
the values of variables not listed in `to_reset` are not restored but keep
whatever the body left there. -/
theorem tsm_restores (to_fix to_deactivate to_reset : List ℕ)
    (body : SubsysState → SubsysState) (s : SubsysState) :
    (∀ i ∈ to_fix,
      (tsm_with to_fix to_deactivate to_reset body s).varFixed i = s.varFixed i) ∧
    (∀ c ∈ to_deactivate,
      (tsm_with to_fix to_deactivate to_reset body s).conActive c = s.conActive c) ∧
    (∀ i ∈ to_reset,
      (tsm_with to_fix to_deactivate to_reset body s).varValue i = s.varValue i) ∧
    (∀ i, i ∉ to_reset →
      (tsm_with to_fix to_deactivate to_reset body s).varValue i =
        (body (tsm_enter to_fix to_deactivate to_reset s).2).varValue i) := by
  refine ⟨?_, ?_, ?_, ?_⟩
  · intro i hi
    show (List.lookup i (to_fix.map fun j => (j, s.varFixed j))).getD _ = s.varFixed i
    rw [lookup_map_of_mem _ _ _ hi]
    rfl
  · intro c hc
    show (List.lookup c (to_deactivate.map fun j => (j, s.conActive j))).getD _ = s.conActive c
    rw [lookup_map_of_mem _ _ _ hc]
    rfl
  · intro i hi
    show (List.lookup i (to_reset.map fun j => (j, s.varValue j))).getD _ = s.varValue i
    rw [lookup_map_of_mem _ _ _ hi]
    rfl
  · intro i hi
    show (List.lookup i (to_reset.map fun j => (j, s.varValue j))).getD _ = _
    rw [lookup_map_of_not_mem _ _ _ hi]
    rfl

/-- The initial state of the redundant-request scenario: variable 2 is
already fixed, constraint 1 is already deactivated, variable 1 holds value
3/2. -/
def tsmStart : SubsysState :=
  ⟨fun i => i == 2, fun i => if i = 1 then some (3 / 2) else none, fun i => !(i == 1)⟩

/-- The body of the scenario: sets variable 1 to 2 and variable 2 to 3. -/
def tsmBody : SubsysState → SubsysState :=
  fun st => ⟨st.varFixed,
    fun i => if i = 1 then some 2 else if i = 2 then some 3 else st.varValue i,
    st.conActive⟩

theorem tsm_restores_witness :
    (tsm_with [2, 4] [1, 2] [1] tsmBody tsmStart).varFixed 2 = true ∧
    (tsm_with [2, 4] [1, 2] [1] tsmBody tsmStart).varFixed 4 = false ∧
    (tsm_with [2, 4] [1, 2] [1] tsmBody tsmStart).conActive 1 = false ∧
    (tsm_with [2, 4] [1, 2] [1] tsmBody tsmStart).conActive 2 = true ∧
    (tsm_with [2, 4] [1, 2] [1] tsmBody tsmStart).varValue 1 = some (3 / 2) ∧
    (tsm_with [2, 4] [1, 2] [1] tsmBody tsmStart).varValue 2 = some 3 := by
  have h := tsm_restores [2, 4] [1, 2] [1] tsmBody tsmStart
  exact ⟨h.1 2 (by decide), h.1 4 (by decide), h.2.1 1 (by decide), h.2.1 2 (by decide),
    h.2.2.1 1 (by decide), h.2.2.2 2 (by decide)⟩

/-- The largest length of a component name in the model. -/
def max_name_length (comps : List String) : ℕ :=
  comps.foldr (fun s m => max s.length m) 0

/-- Modelled from the spec: `pyomo.common.modeling.unique_component_name` is
not among the sources; the spec only requires that the generated sub-block
name "is generated to avoid collision with existing model components".  The
requested name is kept when free; otherwise a suffix longer than every
existing name is appended, so the result collides with no existing
component. -/
def unique_component_name (comps : List String) (name : String) : String :=
  if name ∈ comps then
    name ++ String.mk (List.replicate (max_name_length comps + 1) '_')
  else name

/-- Embedding of `aos_utils._add_aos_block`: add a fresh block under a unique
name and return it. -/
def _add_aos_block (comps : List String) (name : String) : List String × String :=
  (comps ++ [unique_component_name comps name], unique_component_name comps name)

/-- The transformation sub-block: its generated name and its `cuts`
container. -/
structure CutBlock where
  name : String
  cuts : List (LinIneq ℤ)

/-- Modelled from the spec: the transformation block creation of
pyomo/gdp/plugins/cuttingplane.py (not among the sources): each application
attaches one new sub-block under a collision-free name, holding the `cuts`
constraint container. -/
def add_transformation_block (comps : List String) (requested : String)
    (pool : List (LinIneq ℤ)) : List String × CutBlock :=
  (comps ++ [unique_component_name comps requested],
   ⟨unique_component_name comps requested, pool⟩)

lemma length_le_max_name_length (comps : List String) (s : String) (h : s ∈ comps) :
    s.length ≤ max_name_length comps := by
  induction comps with
  | nil => cases h
  | cons a t ih =>
      rcases List.mem_cons.mp h with rfl | h'
      · exact le_max_left _ _
      · exact le_trans (ih h') (le_max_right _ _)

lemma unique_component_name_not_mem (comps : List String) (name : String) :
    unique_component_name comps name ∉ comps := by
  rw [unique_component_name]
  by_cases h : name ∈ comps
  · rw [if_pos h]
    intro hmem
    have hlen := length_le_max_name_length comps _ hmem
    rw [String.length_append] at hlen
    have hsuf : (String.mk (List.replicate (max_name_length comps + 1) '_')).length =
        max_name_length comps + 1 := by
      show (List.replicate (max_name_length comps + 1) '_').length = _
      exact List.length_replicate _ _
    omega
  · rw [if_neg h]
    exact h

/-- C9: For every model and requested block name, each application of the
transformation attaches exactly one new sub-block whose name differs from
the name of every component already present (no collision even when a
component with the requested name already exists), and the sub-block holds
the cuts container; likewise `_add_aos_block` attaches exactly one component
under a collision-free name. -/
theorem transformation_block_unique (comps : List String) (requested : String)
    (pool : List (LinIneq ℤ)) (name : String) :
    (add_transformation_block comps requested pool).1 =
      comps ++ [(add_transformation_block comps requested pool).2.name] ∧
    (add_transformation_block comps requested pool).2.name ∉ comps ∧
    (add_transformation_block comps requested pool).2.cuts = pool ∧
    (_add_aos_block comps name).1 = comps ++ [(_add_aos_block comps name).2] ∧
    (_add_aos_block comps name).2 ∉ comps :=
  ⟨rfl, unique_component_name_not_mem comps requested, rfl, rfl,
    unique_component_name_not_mem comps name⟩
